import Mathlib

/-!
# Gated cache layer: TTL/LRU cache, token-bucket rate limiter, coordinator

Shallow embedding of the gated-cache core of the `google-geocode-ts` library:
the TTL/LRU `Cache` (src/src/cache.ts), the token-bucket `RateLimiter`
(rateLimiter.ts) and the `Geocoder.requestWithCacheAndRateLimit` coordinator
(geocoder.ts).

Modelling conventions:
* Timestamps and durations are `Int` milliseconds; `Date.now()` becomes an
  explicit `now : Int` argument threaded into each operation that reads the
  clock.  Durations (`ttl`, `interval`) are assumed to be positive integers,
  as in every configuration the library accepts (defaults 3600000 and 1000).
* A JavaScript `Map` is modelled as an association list in insertion order,
  oldest entry first: `Map.prototype.keys().next()` is the head of the list,
  `Map.prototype.set` on a fresh key appends at the tail, and `Map.prototype.set`
  on an existing key replaces the value in place, keeping its position.
* Methods that mutate `this` become functions from state to (result, state).
* `Cache.set` contains a `while` loop that does not terminate when
  `maxSize = 0` (the loop condition `size >= maxSize` stays true and the empty
  map offers no key to delete); the embedding returns `Option`, with `none`
  marking exactly the non-terminating executions of the source loop.
-/

set_option autoImplicit false

/-- One stored cache entry: the value together with its absolute expiry
timestamp (`CacheEntry<T>` in cache.ts). -/
structure CacheEntry (V : Type) where
  value : V
  expiresAt : Int
deriving DecidableEq, Repr

/-- The backing `Map<string, CacheEntry<T>>`, as an association list in
insertion order (oldest first). -/
abbrev EntryList (V : Type) := List (String × CacheEntry V)

/-- `Map.prototype.get`: the entry stored under `key`, if any. -/
def findEntry {V : Type} (l : EntryList V) (key : String) : Option (CacheEntry V) :=
  (l.find? (fun p => p.1 == key)).map (fun p => p.2)

/-- `Map.prototype.delete`'s effect on the entries: remove the entry for
`key`, keeping the order of the others. -/
def eraseKey {V : Type} (l : EntryList V) (key : String) : EntryList V :=
  l.filter (fun p => !(p.1 == key))

/-- `Map.prototype.has` as a plain membership test on the entry list. -/
def hasKey {V : Type} (l : EntryList V) (key : String) : Bool :=
  l.any (fun p => p.1 == key)

/-- `Map.prototype.set`: replace in place when the key is present (insertion
order is preserved for existing keys), append at the tail otherwise. -/
def mapSet {V : Type} (l : EntryList V) (key : String) (e : CacheEntry V) : EntryList V :=
  if hasKey l key then l.map (fun p => if p.1 == key then (key, e) else p)
  else l ++ [(key, e)]

/-- State of one `Cache<T>` instance: the ordered entry map plus the two
immutable configuration fields set by the constructor. -/
structure CacheState (V : Type) where
  entries : EntryList V
  ttl : Int
  maxSize : Nat
deriving DecidableEq, Repr

namespace Cache

/-- `new Cache(options)`: empty map, `ttl` defaulting to one hour
(3600000 ms) and `maxSize` defaulting to 1000. -/
def new {V : Type} (ttl : Option Int) (maxSize : Option Nat) : CacheState V :=
  { entries := [], ttl := ttl.getD 3600000, maxSize := maxSize.getD 1000 }

/-- `Cache.get(key)`: absent keys and expired entries yield `none` (an
expired entry is deleted as a side effect); a live entry is moved to the
recent end of the order (delete + re-insert) and its value returned. -/
def get {V : Type} (st : CacheState V) (now : Int) (key : String) :
    Option V × CacheState V :=
  match findEntry st.entries key with
  | none => (none, st)
  | some entry =>
    if entry.expiresAt < now then
      (none, { st with entries := eraseKey st.entries key })
    else
      (some entry.value, { st with entries := eraseKey st.entries key ++ [(key, entry)] })

/-- The eviction `while` loop at the top of `Cache.set`: while
`size >= maxSize`, delete the first (oldest) key.  When the map is empty and
the condition still holds (exactly the `maxSize = 0` configurations) the
source loop never exits; the embedding returns `none` there. -/
def evictLoop {V : Type} (l : EntryList V) (maxSize : Nat) : Option (EntryList V) :=
  if maxSize ≤ l.length then
    match l with
    | [] => none
    | _ :: rest => evictLoop rest maxSize
  else some l

/-- `Cache.set(key, value, ttl?)`: run the eviction loop, then store the
value under `key` with expiry `now + (ttl ?? this.ttl)`. -/
def set {V : Type} (st : CacheState V) (now : Int) (key : String) (value : V)
    (ttl : Option Int) : Option (CacheState V) :=
  (evictLoop st.entries st.maxSize).map fun l =>
    { st with entries := mapSet l key { value := value, expiresAt := now + ttl.getD st.ttl } }

/-- `Cache.has(key)`: defined in the source as `this.get(key) !== undefined`,
so it performs `get`'s expiry check and carries `get`'s side effects. -/
def has {V : Type} (st : CacheState V) (now : Int) (key : String) :
    Bool × CacheState V :=
  let r := get st now key
  (r.1.isSome, r.2)

/-- `Cache.delete(key)`: forwards to `Map.prototype.delete`; returns whether
the key was physically present, with no expiry check. -/
def delete {V : Type} (st : CacheState V) (key : String) : Bool × CacheState V :=
  (hasKey st.entries key, { st with entries := eraseKey st.entries key })

/-- `Cache.clear()`. -/
def clear {V : Type} (st : CacheState V) : CacheState V :=
  { st with entries := [] }

/-- `Cache.size`: the number of entries physically stored. -/
def size {V : Type} (st : CacheState V) : Nat :=
  st.entries.length

/-- `Cache.prune()`: remove every expired entry, returning how many were
removed. -/
def prune {V : Type} (st : CacheState V) (now : Int) : Nat × CacheState V :=
  ((st.entries.filter (fun p => p.2.expiresAt < now)).length,
   { st with entries := st.entries.filter (fun p => !(p.2.expiresAt < now)) })

end Cache

/-- State of one `RateLimiter` instance (rateLimiter.ts): the four immutable
configuration fields, the token count, the refill anchor, the FIFO queue of
parked admissions (each identified by a caller-chosen id), and whether the
periodic refill timer is running. -/
structure RateLimiterState where
  maxRequests : Nat
  interval : Int
  shouldQueue : Bool
  maxQueueSize : Nat
  tokens : Nat
  lastRefill : Int
  queue : List Nat
  timerRunning : Bool
deriving DecidableEq, Repr

/-- Result of `RateLimiter.acquire`: an immediate grant, a parked admission
(the returned promise stays pending), or a thrown `RateLimitError` with the
given message. -/
inductive AcquireOutcome where
  | granted
  | queued
  | failed (msg : String)
deriving DecidableEq, Repr

namespace RateLimiter

/-- `new RateLimiter(options)` at time `now`: defaults 50 requests per
1000 ms interval, queueing on, queue bounded by 100; the bucket starts full
and the refill anchor at `now`. -/
def new (maxRequests : Option Nat) (interval : Option Int) (queue : Option Bool)
    (maxQueueSize : Option Nat) (now : Int) : RateLimiterState :=
  { maxRequests := maxRequests.getD 50
    interval := interval.getD 1000
    shouldQueue := queue.getD true
    maxQueueSize := maxQueueSize.getD 100
    tokens := maxRequests.getD 50
    lastRefill := now
    queue := []
    timerRunning := false }

/-- The `while` loop of `processQueue`: while the queue is non-empty and a
token is available, shift the head admission, consume a token and grant it.
Returns (remaining queue, remaining tokens, granted admissions in order). -/
def drain : List Nat → Nat → List Nat × Nat × List Nat
  | [], t => ([], t, [])
  | x :: rest, 0 => (x :: rest, 0, [])
  | x :: rest, t + 1 =>
    let r := drain rest t
    (r.1, r.2.1, x :: r.2.2)

/-- `RateLimiter.processQueue()`: drain the queue FIFO while tokens remain,
then stop the refill timer if the queue is empty.  Returns the new state and
the admissions granted. -/
def processQueue (st : RateLimiterState) : RateLimiterState × List Nat :=
  let r := drain st.queue st.tokens
  ({ st with
      queue := r.1
      tokens := r.2.1
      timerRunning := if r.1.isEmpty then false else st.timerRunning },
   r.2.2)

/-- `RateLimiter.refill()` at time `now`: with `elapsed = now - lastRefill`,
if `elapsed >= interval` add `floor(elapsed / interval)` intervals' worth of
tokens capped at `maxRequests`, set the anchor to `now - (elapsed % interval)`
(JavaScript `%` on the non-negative `elapsed` and positive `interval`), and
process the queue; otherwise change nothing. -/
def refill (st : RateLimiterState) (now : Int) : RateLimiterState × List Nat :=
  let elapsed := now - st.lastRefill
  if st.interval ≤ elapsed then
    processQueue
      { st with
          tokens := min st.maxRequests
            (st.tokens + (Int.fdiv elapsed st.interval).toNat * st.maxRequests)
          lastRefill := now - Int.tmod elapsed st.interval }
  else (st, [])

/-- `RateLimiter.acquire()` at time `now`, where `id` identifies the would-be
queued admission: refill; grant immediately when a token is available;
otherwise throw when queueing is disabled or the queue is full; otherwise
start the refill timer and park the caller at the tail of the queue.
Returns (outcome, new state, admissions granted during the refill). -/
def acquire (st : RateLimiterState) (now : Int) (id : Nat) :
    AcquireOutcome × RateLimiterState × List Nat :=
  let r := refill st now
  let st1 := r.1
  if 0 < st1.tokens then
    (.granted, { st1 with tokens := st1.tokens - 1 }, r.2)
  else if st1.shouldQueue = false then
    (.failed "Rate limit exceeded", st1, r.2)
  else if st1.maxQueueSize ≤ st1.queue.length then
    (.failed "Rate limit queue is full", st1, r.2)
  else
    (.queued, { st1 with timerRunning := true, queue := st1.queue ++ [id] }, r.2)

/-- `RateLimiter.tryAcquire()` at time `now`: refill, then consume a token if
one is available; never queues. -/
def tryAcquire (st : RateLimiterState) (now : Int) : Bool × RateLimiterState × List Nat :=
  let r := refill st now
  let st1 := r.1
  if 0 < st1.tokens then (true, { st1 with tokens := st1.tokens - 1 }, r.2)
  else (false, st1, r.2)

/-- `RateLimiter.getAvailableTokens()`: refill, then report the token count. -/
def getAvailableTokens (st : RateLimiterState) (now : Int) :
    Nat × RateLimiterState × List Nat :=
  let r := refill st now
  (r.1.tokens, r.1, r.2)

/-- `RateLimiter.getQueueSize()`: the queue length, with no refill. -/
def getQueueSize (st : RateLimiterState) : Nat :=
  st.queue.length

/-- `RateLimiter.reset()` at time `now`: restore a full bucket, move the
anchor to `now`, stop the refill timer, and reject every queued admission
with a `RateLimitError("Rate limiter was reset")`, shifting them off in FIFO
order.  Returns the new state and the rejected (id, message) pairs in the
order they were rejected. -/
def reset (st : RateLimiterState) (now : Int) :
    RateLimiterState × List (Nat × String) :=
  ({ st with
      tokens := st.maxRequests
      lastRefill := now
      timerRunning := false
      queue := [] },
   st.queue.map (fun id => (id, "Rate limiter was reset")))

end RateLimiter

/-- Result of one producer invocation (the upstream call the coordinator
gates): a result list, or a thrown error the coordinator passes through. -/
inductive ProducerResult (V : Type) where
  | success (results : List V)
  | failure
deriving DecidableEq

/-- Observable outcome of one `requestWithCacheAndRateLimit` call: a value
(from cache or from the producer), a thrown `RateLimitError`, a call left
pending in the limiter queue, or a propagated producer error. -/
inductive FetchOutcome (V : Type) where
  | ok (results : List V)
  | rateLimited (msg : String)
  | queuedPending
  | producerFailed
deriving DecidableEq

/-- State of one `Geocoder` relevant to the coordinator: the cache and rate
limiter (each `none` when disabled by configuration) plus an instrumentation
counter of how many times the producer has been invoked. -/
structure GeocoderState (V : Type) where
  cache : Option (CacheState (List V))
  rateLimiter : Option RateLimiterState
  producerCalls : Nat
deriving DecidableEq

namespace Geocoder

/-- Steps 3–4 of `requestWithCacheAndRateLimit`: invoke the producer (the
`this.request(parameters)` call), counting the invocation; on failure the
error propagates and nothing is cached; on success cache the results under
`cacheKey` iff caching is enabled and `results.length > 0`.  `none` marks the
non-terminating `Cache.set` executions (`maxSize = 0`). -/
def produceAndCache {V : Type} (st : GeocoderState V) (now : Int) (cacheKey : String)
    (producer : Nat → ProducerResult V) : Option (FetchOutcome V × GeocoderState V) :=
  match producer st.producerCalls with
  | .failure => some (.producerFailed, { st with producerCalls := st.producerCalls + 1 })
  | .success results =>
    let st1 := { st with producerCalls := st.producerCalls + 1 }
    match st1.cache, results with
    | some c, _ :: _ =>
      match Cache.set c now cacheKey results none with
      | some c1 => some (.ok results, { st1 with cache := some c1 })
      | none => none
    | _, _ => some (.ok results, st1)

/-- `Geocoder.requestWithCacheAndRateLimit(parameters, cacheKey)`: check the
cache first (a hit returns at once, touching neither the limiter nor the
producer); then acquire admission from the rate limiter when one is
configured (a throw propagates, a queued admission leaves the call pending);
then invoke the producer and cache a non-empty result. -/
def requestWithCacheAndRateLimit {V : Type} (st : GeocoderState V) (now : Int)
    (cacheKey : String) (producer : Nat → ProducerResult V) :
    Option (FetchOutcome V × GeocoderState V) :=
  let step1 : Option (List V) × GeocoderState V :=
    match st.cache with
    | some c =>
      let r := Cache.get c now cacheKey
      (r.1, { st with cache := some r.2 })
    | none => (none, st)
  match step1.1 with
  | some cached => some (.ok cached, step1.2)
  | none =>
    let st1 := step1.2
    match st1.rateLimiter with
    | none => produceAndCache st1 now cacheKey producer
    | some rl =>
      let a := RateLimiter.acquire rl now st1.producerCalls
      let st2 := { st1 with rateLimiter := some a.2.1 }
      match a.1 with
      | .granted => produceAndCache st2 now cacheKey producer
      | .queued => some (.queuedPending, st2)
      | .failed msg => some (.rateLimited msg, st2)

end Geocoder

/-! ## Helper lemmas about the entry-list operations -/

section Helpers

variable {V : Type}

theorem evictLoop_cons_of_le {p : String × CacheEntry V} {rest : EntryList V}
    {n : Nat} (h : n ≤ (p :: rest).length) :
    Cache.evictLoop (p :: rest) n = Cache.evictLoop rest n := by
  rw [Cache.evictLoop.eq_def]
  rw [if_pos h]

theorem evictLoop_of_lt {l : EntryList V} {n : Nat} (h : l.length < n) :
    Cache.evictLoop l n = some l := by
  rw [Cache.evictLoop.eq_def]
  rw [if_neg (Nat.not_le.mpr h)]

theorem evictLoop_nil_of_pos {n : Nat} (hn : 1 ≤ n) :
    Cache.evictLoop ([] : EntryList V) n = some [] :=
  evictLoop_of_lt (by simpa using hn)

theorem evictLoop_some_of_pos (l : EntryList V) {n : Nat} (hn : 1 ≤ n) :
    ∃ l', Cache.evictLoop l n = some l' := by
  induction l with
  | nil => exact ⟨[], evictLoop_nil_of_pos hn⟩
  | cons p rest ih =>
    by_cases h : n ≤ (p :: rest).length
    · rw [evictLoop_cons_of_le h]
      exact ih
    · exact ⟨p :: rest, evictLoop_of_lt (Nat.lt_of_not_le h)⟩

theorem evictLoop_length_lt {n : Nat} {l l' : EntryList V}
    (h : Cache.evictLoop l n = some l') : l'.length < n := by
  induction l with
  | nil =>
    rw [Cache.evictLoop.eq_def] at h
    by_cases hc : n ≤ ([] : EntryList V).length
    · rw [if_pos hc] at h
      exact Option.noConfusion h
    · rw [if_neg hc] at h
      cases h
      exact Nat.lt_of_not_le hc
  | cons p rest ih =>
    by_cases hc : n ≤ (p :: rest).length
    · rw [evictLoop_cons_of_le hc] at h
      exact ih h
    · rw [evictLoop_of_lt (Nat.lt_of_not_le hc)] at h
      cases h
      exact Nat.lt_of_not_le hc

theorem evictLoop_sublist {n : Nat} {l l' : EntryList V}
    (h : Cache.evictLoop l n = some l') : l'.Sublist l := by
  induction l with
  | nil =>
    rw [Cache.evictLoop.eq_def] at h
    by_cases hc : n ≤ ([] : EntryList V).length
    · rw [if_pos hc] at h
      exact Option.noConfusion h
    · rw [if_neg hc] at h
      cases h
      exact List.Sublist.refl _
  | cons p rest ih =>
    by_cases hc : n ≤ (p :: rest).length
    · rw [evictLoop_cons_of_le hc] at h
      exact List.Sublist.cons p (ih h)
    · rw [evictLoop_of_lt (Nat.lt_of_not_le hc)] at h
      cases h
      exact List.Sublist.refl _

theorem evictLoop_full {l : EntryList V} {n : Nat} (hlen : l.length = n)
    (hn : 1 ≤ n) : Cache.evictLoop l n = some l.tail := by
  cases l with
  | nil => simp at hlen; omega
  | cons p rest =>
    rw [evictLoop_cons_of_le (le_of_eq hlen.symm)]
    exact evictLoop_of_lt (by simp at hlen; omega)

theorem findEntry_none_iff {l : EntryList V} {key : String} :
    findEntry l key = none ↔ ∀ p ∈ l, (p.1 == key) = false := by
  simp [findEntry, List.find?_eq_none]

theorem hasKey_false_iff {l : EntryList V} {key : String} :
    hasKey l key = false ↔ ∀ p ∈ l, (p.1 == key) = false := by
  simp [hasKey, List.any_eq_false]

theorem hasKey_false_of_findEntry_none {l : EntryList V} {key : String}
    (h : findEntry l key = none) : hasKey l key = false :=
  hasKey_false_iff.mpr (findEntry_none_iff.mp h)

theorem findEntry_none_of_hasKey_false {l : EntryList V} {key : String}
    (h : hasKey l key = false) : findEntry l key = none :=
  findEntry_none_iff.mpr (hasKey_false_iff.mp h)

theorem hasKey_true_of_findEntry_some {l : EntryList V} {key : String}
    {e : CacheEntry V} (h : findEntry l key = some e) : hasKey l key = true := by
  by_contra hc
  rw [findEntry_none_of_hasKey_false (Bool.eq_false_iff.mpr (by simpa using hc))] at h
  exact Option.noConfusion h

theorem hasKey_false_of_sublist {l l' : EntryList V} {key : String}
    (hs : l'.Sublist l) (h : hasKey l key = false) : hasKey l' key = false :=
  hasKey_false_iff.mpr (fun p hp => hasKey_false_iff.mp h p (hs.subset hp))

theorem findEntry_append_self {l : EntryList V} {key : String}
    (h : findEntry l key = none) (e : CacheEntry V) :
    findEntry (l ++ [(key, e)]) key = some e := by
  have h0 : l.find? (fun p => p.1 == key) = none := by
    simpa [findEntry] using h
  simp [findEntry, List.find?_append, h0]

theorem mapSet_of_hasKey_false {l : EntryList V} {key : String}
    (h : hasKey l key = false) (e : CacheEntry V) :
    mapSet l key e = l ++ [(key, e)] := by
  simp [mapSet, h]

theorem length_mapSet_le {l : EntryList V} (key : String) (e : CacheEntry V) :
    (mapSet l key e).length ≤ l.length + 1 := by
  rw [mapSet]
  by_cases h : hasKey l key
  · simp [h]
  · simp [h]

theorem length_eraseKey_le (l : EntryList V) (key : String) :
    (eraseKey l key).length ≤ l.length :=
  List.length_filter_le _ l

theorem length_eraseKey_lt {l : EntryList V} {key : String} {e : CacheEntry V}
    (h : findEntry l key = some e) : (eraseKey l key).length < l.length := by
  induction l with
  | nil => simp [findEntry] at h
  | cons p rest ih =>
    cases hpk : (p.1 == key) with
    | true =>
      have h2 := length_eraseKey_le rest key
      simp only [eraseKey] at h2
      simp [eraseKey, hpk]
      omega
    | false =>
      have hfind : findEntry rest key = some e := by
        simpa [findEntry, List.find?_cons, hpk] using h
      have h3 := ih hfind
      simp only [eraseKey] at h3
      simp [eraseKey, hpk]
      omega

theorem length_get_le (st : CacheState V) (now : Int) (key : String) :
    (Cache.get st now key).2.entries.length ≤ st.entries.length := by
  rw [Cache.get]
  cases hf : findEntry st.entries key with
  | none => simp
  | some e =>
    by_cases hx : e.expiresAt < now
    · simp only [hx, ite_true]
      exact length_eraseKey_le st.entries key
    · have hlt := length_eraseKey_lt hf
      simp only [hx, ite_false]
      simp only [List.length_append, List.length_cons, List.length_nil]
      omega

end Helpers

/-! ## Claim theorems -/

/-- C3 (code bug): the spec requires `maxSize = 0` to be a valid degenerate
configuration under which every `set` terminates after evicting down to
size 0, but the source's eviction loop never exits when `maxSize = 0`: the
condition `size >= maxSize` stays true once the map is empty and no key is
left to delete, so `set` hangs.  The embedding marks exactly those
non-terminating executions with `none`; both on an empty cache and on a
non-empty one, `set` diverges. -/
theorem set_with_zero_capacity_diverges :
    Cache.set ({ entries := [], ttl := 3600000, maxSize := 0 } : CacheState Nat)
        0 "a" 1 none = none ∧
    Cache.set
        ({ entries := [("b", { value := 2, expiresAt := 10 })], ttl := 3600000,
           maxSize := 0 } : CacheState Nat) 0 "a" 1 none = none := by
  constructor <;> decide

/-- C6: `has` agrees with `get` in result (true iff `get` returns a value)
and in side effects (same expiry check, same eviction), and in particular
an entry that is physically present but expired is reported absent by both. -/
theorem has_agrees_with_get {V : Type} (st : CacheState V) (now : Int) (key : String) :
    (Cache.has st now key).1 = ((Cache.get st now key).1).isSome ∧
    (Cache.has st now key).2 = (Cache.get st now key).2 ∧
    (∀ e : CacheEntry V, findEntry st.entries key = some e → e.expiresAt < now →
      (Cache.get st now key).1 = none ∧ (Cache.has st now key).1 = false) := by
  refine ⟨rfl, rfl, ?_⟩
  intro e hf hexp
  constructor
  · simp [Cache.get, hf, hexp]
  · simp [Cache.has, Cache.get, hf, hexp]

/-- A concrete one-entry cache whose entry expired at time 50 (set with
ttl 50 at time 0), observed at time 60. -/
def expiredEntryCache : CacheState Nat :=
  { entries := [("k", { value := 7, expiresAt := 50 })], ttl := 50, maxSize := 10 }

/-- Witness for C6 at a concrete expired entry (set with ttl 50, read at 60):
`get` returns absent and `has` returns false. -/
theorem has_agrees_with_get_witness :
    (Cache.get expiredEntryCache 60 "k").1 = none ∧
    (Cache.has expiredEntryCache 60 "k").1 = false :=
  (has_agrees_with_get expiredEntryCache 60 "k").2.2 { value := 7, expiresAt := 50 }
    (by decide) (by decide)

/-- C9: `reset` restores a full bucket, moves the refill anchor to now, stops
the periodic trigger, and rejects every queued admission (all `N` of them, in
FIFO order, each with the "Rate limiter was reset" `RateLimitError`), leaving
the queue empty. -/
theorem reset_rejects_all_queued (st : RateLimiterState) (now : Int) :
    (RateLimiter.reset st now).1.tokens = st.maxRequests ∧
    (RateLimiter.reset st now).1.lastRefill = now ∧
    (RateLimiter.reset st now).1.timerRunning = false ∧
    (RateLimiter.reset st now).1.queue = [] ∧
    (RateLimiter.reset st now).2 = st.queue.map (fun id => (id, "Rate limiter was reset")) ∧
    ((RateLimiter.reset st now).2).length = st.queue.length := by
  refine ⟨rfl, rfl, rfl, rfl, rfl, ?_⟩
  simp [RateLimiter.reset]

/-- C10: `delete` performs no expiry check, so an entry that is expired but
not yet swept is still reported as deleted (`true`), even though `get` and
`has` on the same state report the key absent. -/
theorem delete_ignores_expiry {V : Type} (st : CacheState V) (now : Int) (key : String)
    (e : CacheEntry V) (hf : findEntry st.entries key = some e)
    (hexp : e.expiresAt < now) :
    (Cache.delete st key).1 = true ∧
    (Cache.get st now key).1 = none ∧
    (Cache.has st now key).1 = false := by
  refine ⟨hasKey_true_of_findEntry_some hf, ?_, ?_⟩
  · simp [Cache.get, hf, hexp]
  · simp [Cache.has, Cache.get, hf, hexp]

/-- Witness for C10: a concrete entry expired at 50, observed at 60. -/
theorem delete_ignores_expiry_witness :
    (Cache.delete expiredEntryCache "k").1 = true ∧
    (Cache.get expiredEntryCache 60 "k").1 = none ∧
    (Cache.has expiredEntryCache 60 "k").1 = false :=
  delete_ignores_expiry expiredEntryCache 60 "k" { value := 7, expiresAt := 50 }
    (by decide) (by decide)

/-- The cache for the C2 counterexample: capacity 2, full, holding keys
"a" (least recently touched) and "b". -/
def fullTwoEntryCache : CacheState Nat :=
  { entries := [("a", { value := 1, expiresAt := 1000 }), ("b", { value := 2, expiresAt := 1000 })],
    ttl := 1000, maxSize := 2 }

/-- C2 counterexample: overwriting key "b" in a full capacity-2 cache where
"b" is not the least-recently-touched entry evicts the other key "a" and
shrinks the cache to size 1 — contradicting the claim that overwriting at
capacity evicts no other entry and leaves the size unchanged. -/
theorem overwrite_at_capacity_counterexample :
    (Cache.set fullTwoEntryCache 1 "b" 9 none).map Cache.size = some 1 ∧
    (Cache.set fullTwoEntryCache 1 "b" 9 none).map (fun s => findEntry s.entries "a") =
      some none ∧
    (Cache.set fullTwoEntryCache 1 "b" 9 none).map (fun s => findEntry s.entries "b") =
      some (some { value := 9, expiresAt := 1001 }) := by
  refine ⟨?_, ?_, ?_⟩ <;> decide

/-- C2 as amended: `set(k, v)` on a cache at full capacity that already
contains `k` always runs the eviction loop, which evicts the
least-recently-touched entry.  When `k` itself is the least-recently-touched
entry, that eviction removes `k` and the insert re-adds it at the recent end,
so recency is refreshed, no other entry is evicted and the size is unchanged;
when `k` is not the least-recently-touched entry, the oldest other entry is
evicted and `k` is replaced in place — no recency refresh, size down by one. -/
theorem overwrite_at_capacity_behavior {V : Type} :
    (∀ (st : CacheState V) (now : Int) (k : String) (v : V) (e : CacheEntry V)
        (rest : EntryList V),
      st.entries = (k, e) :: rest →
      st.entries.length = st.maxSize →
      hasKey rest k = false →
      Cache.set st now k v none =
        some { st with entries := rest ++ [(k, { value := v, expiresAt := now + st.ttl })] }) ∧
    (∀ (st : CacheState V) (now : Int) (k j : String) (v : V) (e : CacheEntry V)
        (rest : EntryList V),
      st.entries = (j, e) :: rest →
      st.entries.length = st.maxSize →
      hasKey rest k = true →
      Cache.set st now k v none =
        some { st with
               entries := rest.map
                 (fun p => if p.1 == k then (k, { value := v, expiresAt := now + st.ttl }) else p) }) := by
  constructor
  · intro st now k v e rest hent hfull hno
    have hpos : 1 ≤ st.maxSize := by
      rw [← hfull, hent]
      simp
    rw [Cache.set, evictLoop_full hfull hpos, hent]
    simp [mapSet_of_hasKey_false hno]
  · intro st now k j v e rest hent hfull hk
    have hpos : 1 ≤ st.maxSize := by
      rw [← hfull, hent]
      simp
    rw [Cache.set, evictLoop_full hfull hpos, hent]
    simp [mapSet, hk]

/-- Witness for the amended C2, both branches at concrete full caches:
overwriting the least-recently-touched key "a" refreshes it in place at the
recent end; overwriting the more recent key "b" evicts "a" and replaces "b"
in place. -/
theorem overwrite_at_capacity_behavior_witness :
    Cache.set fullTwoEntryCache 1 "a" 8 none =
      some { fullTwoEntryCache with
        entries := [("b", { value := 2, expiresAt := 1000 }),
                    ("a", { value := 8, expiresAt := 1001 })] } ∧
    Cache.set fullTwoEntryCache 1 "b" 9 none =
      some { fullTwoEntryCache with
        entries := [("b", { value := 9, expiresAt := 1001 })] } := by
  constructor
  · exact overwrite_at_capacity_behavior.1 fullTwoEntryCache 1 "a" 8
      { value := 1, expiresAt := 1000 } [("b", { value := 2, expiresAt := 1000 })]
      rfl rfl (by decide)
  · exact overwrite_at_capacity_behavior.2 fullTwoEntryCache 1 "b" "a" 9
      { value := 1, expiresAt := 1000 } [("b", { value := 2, expiresAt := 1000 })]
      rfl rfl (by decide)

/-- C4: with `maxSize >= 1` the invariant `size <= maxSize` holds initially
(the constructor starts empty) and is preserved by every operation — `set`
enforces the bound by evicting before inserting, and `get`, `has`, `delete`,
`clear` and `prune` never grow the map. -/
theorem cache_size_le_maxSize {V : Type} (st : CacheState V) (now : Int) (key : String)
    (value : V) (ttlo : Option Int) (hm : 1 ≤ st.maxSize)
    (hs : Cache.size st ≤ st.maxSize) :
    (∀ (t : Option Int) (m : Option Nat),
      Cache.size (Cache.new t m : CacheState V) ≤ (Cache.new t m : CacheState V).maxSize) ∧
    Cache.size (Cache.get st now key).2 ≤ st.maxSize ∧
    (∃ st', Cache.set st now key value ttlo = some st' ∧ Cache.size st' ≤ st.maxSize) ∧
    Cache.size (Cache.has st now key).2 ≤ st.maxSize ∧
    Cache.size (Cache.delete st key).2 ≤ st.maxSize ∧
    Cache.size (Cache.clear st) ≤ st.maxSize ∧
    Cache.size (Cache.prune st now).2 ≤ st.maxSize := by
  have hget : Cache.size (Cache.get st now key).2 ≤ st.maxSize :=
    le_trans (length_get_le st now key) hs
  refine ⟨?_, hget, ?_, hget, ?_, ?_, ?_⟩
  · intro t m
    simp [Cache.new, Cache.size]
  · obtain ⟨l', hl'⟩ := evictLoop_some_of_pos st.entries hm
    refine ⟨_, by rw [Cache.set, hl']; rfl, ?_⟩
    have h1 : l'.length < st.maxSize := evictLoop_length_lt hl'
    have h2 := length_mapSet_le (l := l') key
      { value := value, expiresAt := now + ttlo.getD st.ttl }
    simp only [Cache.size]
    omega
  · exact le_trans (length_eraseKey_le st.entries key) hs
  · simp [Cache.clear, Cache.size]
  · exact le_trans (List.length_filter_le _ st.entries) hs

/-- A concrete capacity-2 cache holding one live entry, for the C4 witness. -/
def oneEntryCache : CacheState Nat :=
  { entries := [("x", { value := 3, expiresAt := 100 })], ttl := 50, maxSize := 2 }

/-- Witness for C4 at a concrete cache (capacity 2, one live entry): every
operation keeps the size within the bound, and `set` terminates within it. -/
theorem cache_size_le_maxSize_witness :
    ∃ st', Cache.set oneEntryCache 0 "y" 4 none = some st' ∧ Cache.size st' ≤ 2 :=
  (cache_size_le_maxSize oneEntryCache 0 "y" 4 none (by decide) (by decide)).2.2.1

/-- C5: in a cache at full capacity, inserting a fresh key evicts exactly the
least-recently-touched entry (the head of the recency order) and appends the
new entry at the recent end, leaving every other entry in place; and `get` on
a live key moves that key to the recent end, so it is not the next eviction
candidate. -/
theorem lru_eviction_and_recency {V : Type} :
    (∀ (st : CacheState V) (now : Int) (k : String) (v : V),
      st.entries.length = st.maxSize → 1 ≤ st.maxSize → hasKey st.entries k = false →
      Cache.set st now k v none =
        some { st with
               entries := st.entries.tail ++ [(k, { value := v, expiresAt := now + st.ttl })] }) ∧
    (∀ (st : CacheState V) (now : Int) (k : String) (e : CacheEntry V),
      findEntry st.entries k = some e → ¬ (e.expiresAt < now) →
      Cache.get st now k = (some e.value, { st with entries := eraseKey st.entries k ++ [(k, e)] })) := by
  constructor
  · intro st now k v hfull hpos hmiss
    have htail : hasKey st.entries.tail k = false :=
      hasKey_false_of_sublist (List.tail_sublist st.entries) hmiss
    rw [Cache.set, evictLoop_full hfull hpos]
    simp [mapSet_of_hasKey_false htail]
  · intro st now k e hf hexp
    simp [Cache.get, hf, hexp]

/-- The cache A, B, C (capacity 3) in insertion order, A least recent. -/
def cacheABC : CacheState Nat :=
  { entries := [("A", { value := 1, expiresAt := 1000 }),
                ("B", { value := 2, expiresAt := 1000 }),
                ("C", { value := 3, expiresAt := 1000 })],
    ttl := 1000, maxSize := 3 }

/-- The cache from `cacheABC` after `get("A")`: recency order B, C, A. -/
def cacheBCA : CacheState Nat :=
  { entries := [("B", { value := 2, expiresAt := 1000 }),
                ("C", { value := 3, expiresAt := 1000 }),
                ("A", { value := 1, expiresAt := 1000 })],
    ttl := 1000, maxSize := 3 }

/-- `cacheBCA` after inserting D at time 2: B evicted, A/C/D retrievable. -/
def cacheCAD : CacheState Nat :=
  { entries := [("C", { value := 3, expiresAt := 1000 }),
                ("A", { value := 1, expiresAt := 1000 }),
                ("D", { value := 4, expiresAt := 1002 })],
    ttl := 1000, maxSize := 3 }

/-- Witness for C5, realising the spec's example: capacity 3 holding A, B, C
with A just refreshed by `get` (recency order B, C, A); inserting D evicts
exactly B; and `get` on A in the original A, B, C order moves A to the
recent end. -/
theorem lru_eviction_and_recency_witness :
    Cache.set cacheBCA 2 "D" 4 none = some cacheCAD ∧
    Cache.get cacheABC 1 "A" = (some 1, cacheBCA) := by
  constructor
  · exact lru_eviction_and_recency.1 cacheBCA 2 "D" 4 (by decide) (by decide) (by decide)
  · exact lru_eviction_and_recency.2 cacheABC 1 "A" { value := 1, expiresAt := 1000 }
      (by decide) (by decide)

/-- C7: the refill step.  With a positive interval `I` and (for a limiter
with nothing queued) `elapsed = now - anchor`: whenever `elapsed >= I` the
new token count is `min(C, t + floor(elapsed/I) * C)` and the anchor advances
by exactly `floor(elapsed/I) * I` — not to `now`, so fractional interval
progress is never lost; whenever `elapsed < I` the whole state is unchanged
and nothing is granted. -/
theorem refill_token_arithmetic (st : RateLimiterState) (now : Int)
    (hI : 0 < st.interval) (hq : st.queue = []) :
    (st.interval ≤ now - st.lastRefill →
      (RateLimiter.refill st now).1.tokens =
        min st.maxRequests
          (st.tokens + (Int.fdiv (now - st.lastRefill) st.interval).toNat * st.maxRequests) ∧
      (RateLimiter.refill st now).1.lastRefill =
        st.lastRefill + Int.fdiv (now - st.lastRefill) st.interval * st.interval) ∧
    (now - st.lastRefill < st.interval →
      (RateLimiter.refill st now).1 = st ∧ (RateLimiter.refill st now).2 = []) := by
  constructor
  · intro hel
    have ha : (0 : Int) ≤ now - st.lastRefill := le_trans hI.le hel
    rw [RateLimiter.refill]
    rw [if_pos hel]
    rw [RateLimiter.processQueue]
    simp only [hq, RateLimiter.drain]
    constructor
    · trivial
    show now - Int.tmod (now - st.lastRefill) st.interval =
      st.lastRefill + Int.fdiv (now - st.lastRefill) st.interval * st.interval
    rw [Int.tmod_eq_emod ha hI.le, Int.fdiv_eq_ediv _ hI.le]
    have hid := Int.emod_add_ediv (now - st.lastRefill) st.interval
    rw [mul_comm]
    linarith
  · intro hel
    rw [RateLimiter.refill]
    rw [if_neg (not_le.mpr hel)]
    exact ⟨rfl, rfl⟩

/-- An idle limiter for the C7 witness: capacity 3, interval 100, empty
bucket, anchor at 0, nothing queued. -/
def idleLimiter : RateLimiterState :=
  { maxRequests := 3, interval := 100, shouldQueue := true, maxQueueSize := 2,
    tokens := 0, lastRefill := 0, queue := [], timerRunning := false }

/-- Witness for C7: at `now = 250` (2.5 intervals elapsed) the bucket refills
to 3 tokens and the anchor advances to 200, not 250; at `now = 99` nothing
changes. -/
theorem refill_token_arithmetic_witness :
    (RateLimiter.refill idleLimiter 250).1.tokens = 3 ∧
    (RateLimiter.refill idleLimiter 250).1.lastRefill = 200 ∧
    (RateLimiter.refill idleLimiter 99).1 = idleLimiter := by
  have h1 := (refill_token_arithmetic idleLimiter 250 (by decide) rfl).1 (by decide)
  have h2 := (refill_token_arithmetic idleLimiter 99 (by decide) rfl).2 (by decide)
  refine ⟨?_, ?_, h2.1⟩
  · rw [h1.1]
    decide
  · rw [h1.2]
    decide

/-- C8: `acquire` throws a `RateLimitError` iff, after the initial refill, no
token is available and either queueing is disabled or the queue is already at
`maxQueueSize`; the queue-full case carries the "queue full" message and the
disabled case the default message; and on every failure the state is exactly
the refilled state — no token is consumed and the queue is untouched. -/
theorem acquire_failure_conditions (st : RateLimiterState) (now : Int) (id : Nat) :
    ((∃ msg, (RateLimiter.acquire st now id).1 = AcquireOutcome.failed msg) ↔
      ((RateLimiter.refill st now).1.tokens = 0 ∧
        ((RateLimiter.refill st now).1.shouldQueue = false ∨
          (RateLimiter.refill st now).1.maxQueueSize ≤
            (RateLimiter.refill st now).1.queue.length))) ∧
    (∀ msg, (RateLimiter.acquire st now id).1 = AcquireOutcome.failed msg →
      (RateLimiter.acquire st now id).2.1 = (RateLimiter.refill st now).1) ∧
    ((RateLimiter.refill st now).1.tokens = 0 →
      (RateLimiter.refill st now).1.shouldQueue = false →
      (RateLimiter.acquire st now id).1 = AcquireOutcome.failed "Rate limit exceeded") ∧
    ((RateLimiter.refill st now).1.tokens = 0 →
      (RateLimiter.refill st now).1.shouldQueue = true →
      (RateLimiter.refill st now).1.maxQueueSize ≤ (RateLimiter.refill st now).1.queue.length →
      (RateLimiter.acquire st now id).1 = AcquireOutcome.failed "Rate limit queue is full") := by
  rw [RateLimiter.acquire]
  by_cases h1 : 0 < (RateLimiter.refill st now).1.tokens
  · rw [if_pos h1]
    refine ⟨?_, ?_, ?_, ?_⟩
    · constructor
      · rintro ⟨msg, hmsg⟩
        exact absurd hmsg (by simp)
      · rintro ⟨h0, _⟩
        omega
    · intro msg hmsg
      exact absurd hmsg (by simp)
    · intro h0
      omega
    · intro h0
      omega
  · rw [if_neg h1]
    by_cases h2 : (RateLimiter.refill st now).1.shouldQueue = false
    · rw [if_pos h2]
      refine ⟨?_, ?_, ?_, ?_⟩
      · exact ⟨fun _ => ⟨by omega, Or.inl h2⟩, fun _ => ⟨"Rate limit exceeded", rfl⟩⟩
      · intro msg hmsg
        rfl
      · intro h0 hsq
        rfl
      · intro h0 hsq
        rw [hsq] at h2
        exact absurd h2 (by simp)
    · rw [if_neg h2]
      by_cases h3 : (RateLimiter.refill st now).1.maxQueueSize ≤
          (RateLimiter.refill st now).1.queue.length
      · rw [if_pos h3]
        refine ⟨?_, ?_, ?_, ?_⟩
        · exact ⟨fun _ => ⟨by omega, Or.inr h3⟩, fun _ => ⟨"Rate limit queue is full", rfl⟩⟩
        · intro msg hmsg
          rfl
        · intro h0 hsq
          exact absurd hsq h2
        · intro h0 hsq hfull
          rfl
      · rw [if_neg h3]
        refine ⟨?_, ?_, ?_, ?_⟩
        · constructor
          · rintro ⟨msg, hmsg⟩
            exact absurd hmsg (by simp)
          · rintro ⟨h0, hcase⟩
            rcases hcase with hcase | hcase
            · exact absurd hcase h2
            · exact absurd hcase h3
        · intro msg hmsg
          exact absurd hmsg (by simp)
        · intro h0 hsq
          exact absurd hsq h2
        · intro h0 hsq hfull
          exact absurd hfull h3

/-- Witness for C8: with an empty bucket and fresh anchor, queueing disabled
fails with the default message, a full queue fails with the queue-full
message, and neither failure touches the (refilled) state. -/
theorem acquire_failure_conditions_witness :
    (RateLimiter.acquire { idleLimiter with shouldQueue := false } 50 7).1 =
      AcquireOutcome.failed "Rate limit exceeded" ∧
    (RateLimiter.acquire { idleLimiter with queue := [1, 2] } 50 7).1 =
      AcquireOutcome.failed "Rate limit queue is full" ∧
    (RateLimiter.acquire { idleLimiter with queue := [1, 2] } 50 7).2.1 =
      (RateLimiter.refill { idleLimiter with queue := [1, 2] } 50).1 := by
  refine ⟨?_, ?_, ?_⟩
  · exact (acquire_failure_conditions { idleLimiter with shouldQueue := false } 50 7).2.2.1
      (by decide) (by decide)
  · exact (acquire_failure_conditions { idleLimiter with queue := [1, 2] } 50 7).2.2.2
      (by decide) (by decide) (by decide)
  · exact (acquire_failure_conditions { idleLimiter with queue := [1, 2] } 50 7).2.1
      "Rate limit queue is full"
      ((acquire_failure_conditions { idleLimiter with queue := [1, 2] } 50 7).2.2.2
        (by decide) (by decide) (by decide))

/-! ## Coordinator lemmas for C1 -/

/-- On a clean cache miss, with an admission available on a limiter whose
interval has not yet elapsed, the coordinator consumes exactly one token and
proceeds to the producer step. -/
theorem fetch_miss_grant {V : Type} (c : CacheState (List V)) (rl : RateLimiterState)
    (pc : Nat) (key : String) (producer : Nat → ProducerResult V) (now : Int)
    (hmiss : findEntry c.entries key = none) (htok : 0 < rl.tokens)
    (hfresh : now - rl.lastRefill < rl.interval) :
    Geocoder.requestWithCacheAndRateLimit ⟨some c, some rl, pc⟩ now key producer =
      Geocoder.produceAndCache ⟨some c, some { rl with tokens := rl.tokens - 1 }, pc⟩
        now key producer := by
  have hnr : ¬ (rl.interval ≤ now - rl.lastRefill) := not_le.mpr hfresh
  simp [Geocoder.requestWithCacheAndRateLimit, Cache.get, hmiss,
    RateLimiter.acquire, RateLimiter.refill, hnr, htok]

/-- The producer step on a successful, non-empty producer result caches the
result under the key (appended at the recent end after the eviction loop)
and counts one producer invocation. -/
theorem produceAndCache_success {V : Type} (c : CacheState (List V))
    (R : Option RateLimiterState) (pc : Nat) (key : String)
    (producer : Nat → ProducerResult V) (now : Int) (results : List V)
    (l' : EntryList (List V))
    (hprod : producer pc = ProducerResult.success results) (hne : results ≠ [])
    (hl' : Cache.evictLoop c.entries c.maxSize = some l')
    (hkey : hasKey l' key = false) :
    Geocoder.produceAndCache ⟨some c, R, pc⟩ now key producer =
      some (FetchOutcome.ok results,
        ⟨some { c with entries := l' ++ [(key, { value := results, expiresAt := now + c.ttl })] },
         R, pc + 1⟩) := by
  cases results with
  | nil => exact absurd rfl hne
  | cons r rs =>
    simp [Geocoder.produceAndCache, hprod, Cache.set, hl', mapSet_of_hasKey_false hkey]

/-- A cache hit on a live entry returns the cached value at once and touches
neither the rate limiter nor the producer counter. -/
theorem fetch_hit {V : Type} (c : CacheState (List V)) (R : Option RateLimiterState)
    (pc : Nat) (key : String) (producer : Nat → ProducerResult V) (now : Int)
    (e : CacheEntry (List V)) (hf : findEntry c.entries key = some e)
    (hexp : ¬ (e.expiresAt < now)) :
    Geocoder.requestWithCacheAndRateLimit ⟨some c, R, pc⟩ now key producer =
      some (FetchOutcome.ok e.value,
        ⟨some { c with entries := eraseKey c.entries key ++ [(key, e)] }, R, pc⟩) := by
  simp [Geocoder.requestWithCacheAndRateLimit, Cache.get, hf, hexp]

/-- Whatever the producer returns (success, empty success, or failure), the
producer step invokes it exactly once, provided any enabled cache has
positive capacity (so the caching write terminates). -/
theorem produceAndCache_increments {V : Type} (st : GeocoderState V) (now : Int)
    (key : String) (producer : Nat → ProducerResult V)
    (hc : ∀ cc, st.cache = some cc → 1 ≤ cc.maxSize) :
    ∃ out st', Geocoder.produceAndCache st now key producer = some (out, st') ∧
      st'.producerCalls = st.producerCalls + 1 := by
  cases hp : producer st.producerCalls with
  | failure =>
    exact ⟨FetchOutcome.producerFailed, { st with producerCalls := st.producerCalls + 1 },
      by simp [Geocoder.produceAndCache, hp], rfl⟩
  | success results =>
    cases hcc : st.cache with
    | none =>
      refine ⟨FetchOutcome.ok results, { st with producerCalls := st.producerCalls + 1 }, ?_, rfl⟩
      cases results with
      | nil => simp [Geocoder.produceAndCache, hp, hcc]
      | cons r rs => simp [Geocoder.produceAndCache, hp, hcc]
    | some cc =>
      cases results with
      | nil =>
        exact ⟨FetchOutcome.ok [], { st with producerCalls := st.producerCalls + 1 },
          by simp [Geocoder.produceAndCache, hp, hcc], rfl⟩
      | cons r rs =>
        obtain ⟨l', hl'⟩ := evictLoop_some_of_pos cc.entries (hc cc hcc)
        refine ⟨FetchOutcome.ok (r :: rs),
          { st with
            cache := some { cc with
              entries := mapSet l' key { value := r :: rs, expiresAt := now + cc.ttl } }
            producerCalls := st.producerCalls + 1 }, ?_, rfl⟩
        simp [Geocoder.produceAndCache, hp, hcc, Cache.set, hl']

/-- C1: with caching enabled, a fetch that misses the cache consumes one
rate-limiter admission, invokes the producer once, and caches its non-empty
result; a second fetch with the same key before the TTL elapses returns the
cached value with the producer count and the rate-limiter state unchanged
(no admission consumed, no producer call); and a fetch on a key missing from
the cache always invokes the producer again (one more counted invocation). -/
theorem coordinator_caches_and_calls_producer_once {V : Type}
    (c : CacheState (List V)) (rl : RateLimiterState) (pc : Nat) (key : String)
    (producer : Nat → ProducerResult V) (results : List V) (now1 now2 : Int)
    (hmiss : findEntry c.entries key = none)
    (hcap : 1 ≤ c.maxSize)
    (htok : 0 < rl.tokens)
    (hfresh : now1 - rl.lastRefill < rl.interval)
    (hprod : producer pc = ProducerResult.success results)
    (hne : results ≠ [])
    (httl : ¬ (now1 + c.ttl < now2)) :
    (∃ c1 c2 : CacheState (List V),
      Geocoder.requestWithCacheAndRateLimit ⟨some c, some rl, pc⟩ now1 key producer =
        some (FetchOutcome.ok results,
          ⟨some c1, some { rl with tokens := rl.tokens - 1 }, pc + 1⟩) ∧
      findEntry c1.entries key = some { value := results, expiresAt := now1 + c.ttl } ∧
      Geocoder.requestWithCacheAndRateLimit
          ⟨some c1, some { rl with tokens := rl.tokens - 1 }, pc + 1⟩ now2 key producer =
        some (FetchOutcome.ok results,
          ⟨some c2, some { rl with tokens := rl.tokens - 1 }, pc + 1⟩)) ∧
    (∀ (c' : CacheState (List V)) (rl' : RateLimiterState) (pc' : Nat) (key2 : String)
        (now3 : Int),
      findEntry c'.entries key2 = none → 1 ≤ c'.maxSize → 0 < rl'.tokens →
      now3 - rl'.lastRefill < rl'.interval →
      ∃ (out : FetchOutcome V) (st' : GeocoderState V),
        Geocoder.requestWithCacheAndRateLimit ⟨some c', some rl', pc'⟩ now3 key2 producer =
          some (out, st') ∧ st'.producerCalls = pc' + 1) := by
  constructor
  · obtain ⟨l', hl'⟩ := evictLoop_some_of_pos c.entries hcap
    have hkey' : hasKey l' key = false :=
      hasKey_false_of_sublist (evictLoop_sublist hl') (hasKey_false_of_findEntry_none hmiss)
    have hfind1 : findEntry
        (l' ++ [(key, { value := results, expiresAt := now1 + c.ttl })]) key =
        some { value := results, expiresAt := now1 + c.ttl } :=
      findEntry_append_self (findEntry_none_of_hasKey_false hkey') _
    refine ⟨{ c with entries := l' ++ [(key, { value := results, expiresAt := now1 + c.ttl })] },
      { c with entries :=
          eraseKey (l' ++ [(key, { value := results, expiresAt := now1 + c.ttl })]) key ++
            [(key, { value := results, expiresAt := now1 + c.ttl })] },
      ?_, hfind1, ?_⟩
    · rw [fetch_miss_grant c rl pc key producer now1 hmiss htok hfresh]
      exact produceAndCache_success c (some { rl with tokens := rl.tokens - 1 }) pc key
        producer now1 results l' hprod hne hl' hkey'
    · exact fetch_hit _ (some { rl with tokens := rl.tokens - 1 }) (pc + 1) key producer
        now2 { value := results, expiresAt := now1 + c.ttl } hfind1 httl
  · intro c' rl' pc' key2 now3 hmiss' hcap' htok' hfresh'
    rw [fetch_miss_grant c' rl' pc' key2 producer now3 hmiss' htok' hfresh']
    exact produceAndCache_increments ⟨some c', some { rl' with tokens := rl'.tokens - 1 }, pc'⟩
      now3 key2 producer (fun cc hcc => by cases hcc; exact hcap')

/-- Empty capacity-5 cache of result lists, for the C1 witness. -/
def coordCache : CacheState (List Nat) := { entries := [], ttl := 1000, maxSize := 5 }

/-- Limiter with 2 of 3 tokens available and a fresh anchor, for C1. -/
def coordLimiter : RateLimiterState :=
  { maxRequests := 3, interval := 100, shouldQueue := true, maxQueueSize := 2,
    tokens := 2, lastRefill := 0, queue := [], timerRunning := false }

/-- Instrumented producer that always succeeds with the single result 42. -/
def coordProducer : Nat → ProducerResult Nat := fun _ => ProducerResult.success [42]

/-- Witness for C1: fetching "k1" twice (at times 10 and 20, TTL 1000)
invokes the producer once and leaves the limiter untouched on the second
call; fetching the different key "k2" invokes the producer again. -/
theorem coordinator_caches_and_calls_producer_once_witness :
    (∃ c1 c2 : CacheState (List Nat),
      Geocoder.requestWithCacheAndRateLimit ⟨some coordCache, some coordLimiter, 0⟩
          10 "k1" coordProducer =
        some (FetchOutcome.ok [42],
          ⟨some c1, some { coordLimiter with tokens := coordLimiter.tokens - 1 }, 1⟩) ∧
      findEntry c1.entries "k1" = some { value := [42], expiresAt := 10 + coordCache.ttl } ∧
      Geocoder.requestWithCacheAndRateLimit
          ⟨some c1, some { coordLimiter with tokens := coordLimiter.tokens - 1 }, 1⟩
          20 "k1" coordProducer =
        some (FetchOutcome.ok [42],
          ⟨some c2, some { coordLimiter with tokens := coordLimiter.tokens - 1 }, 1⟩)) ∧
    (∃ (out : FetchOutcome Nat) (st' : GeocoderState Nat),
      Geocoder.requestWithCacheAndRateLimit ⟨some coordCache, some coordLimiter, 0⟩
          30 "k2" coordProducer = some (out, st') ∧
      st'.producerCalls = 1) := by
  have h := coordinator_caches_and_calls_producer_once coordCache coordLimiter 0 "k1"
    coordProducer [42] 10 20 (by decide) (by decide) (by decide) (by decide) rfl
    (by decide) (by decide)
  exact ⟨h.1, h.2 coordCache coordLimiter 0 "k2" 30 (by decide) (by decide) (by decide)
    (by decide)⟩
